import Mathlib

/-!
# Proxy reference tuples and the pair adapter

A shallow embedding of `thrust/iterator/detail/tuple_of_iterator_references.h`
and `thrust/pair.h`.

* Memory is a `Store`: a total map from cell addresses to values.
* A `tuple_of_iterator_references<Ts...>` is recorded by the storage cells that
  `get<i>(*this)` denotes, in index order.  Assignment writes into those cells.
* A build-time rejection (an ill-formed instantiation) is the result `none`.
* The type-level metafunctions (`tuple_size`, `tuple_element`,
  `unwrap_refwrapper`, `unwrap_decay_t`) are functions on a small grammar of
  C++ types.
-/

namespace thrust

/-! ## Memory -/

/-- The address of a storage cell. -/
abbrev Addr := Nat

/-- Memory: the value currently held by every cell. -/
def Store (V : Type) := Addr → V

/-- Reading a cell directly. -/
def Store.read {V : Type} (σ : Store V) (a : Addr) : V := σ a

/-- The store after `cell a = v`. -/
def Store.write {V : Type} (σ : Store V) (a : Addr) (v : V) : Store V :=
  fun b => if b = a then v else σ b

/-! ## `thrust/pair.h` -/

/-- The foreign `std::pair<T2, U2>` (only forward-declared in `pair.h`). -/
structure std_pair (T2 U2 : Type) where
  first : T2
  second : U2

/-- The class `pair<T, U>`, with the two members of its base `cuda::std::pair<T, U>`. -/
structure pair (T U : Type) where
  first : T
  second : U

namespace pair

/-- The constructor `pair(const std::pair<T2, U2>& other) : super_t(other.first, other.second)`.
The implicit conversions `T2 → T` and `U2 → U` performed when the base is
initialised are the parameters `cT` and `cU`. -/
def from_std {T U T2 U2 : Type} (cT : T2 → T) (cU : U2 → U) (other : std_pair T2 U2) :
    pair T U :=
  { first := cT other.first, second := cU other.second }

/-- The operator `pair& operator=(const std::pair<T2, U2>& other)`:
`this->first = other.first; this->second = other.second; return *this;`.
The result is the state of `*this` that the operator returns. -/
def assign_std {T U T2 U2 : Type} (cT : T2 → T) (cU : U2 → U) (self : pair T U)
    (other : std_pair T2 U2) : pair T U :=
  let self1 : pair T U := { self with first := cT other.first }
  let self2 : pair T U := { self1 with second := cU other.second }
  self2

/-- The specialisations `tuple_element<0, pair<T, U>>::type = T` and
`tuple_element<1, pair<T, U>>::type = U`; no other index has a specialisation. -/
def tuple_element : Fin 2 → Type → Type → Type
  | 0, T, _ => T
  | 1, _, U => U

/-- The constant `tuple_size<pair<T, U>>::value`, an `integral_constant<size_t, 2>`. -/
def tuple_size (_T _U : Type) : Nat := 2

/-- The accessor `get<N>(pair<T, U>& t)`, whose body is
`using ::cuda::std::get; return get<N>(t);`.  The using-declaration at block
scope does not switch off argument-dependent lookup, and `pair<T, U>` lives in
namespace `thrust`, so the overload set of the inner call holds this very
function next to `cuda::std::get`.  This function binds `t` as a `pair<T, U>&`
without any conversion, while `cuda::std::get` needs the conversion to the base
`cuda::std::pair<T, U>&`, so overload resolution selects this function: the
body is a call of itself with the same argument.  The first argument bounds
the depth of nested calls; `none` says that the call has not returned within
that depth.  The overloads for `pair&&`, `const pair&` and `const pair&&`
have the same shape. -/
def get {T U : Type} : Nat → (N : Fin 2) → pair T U → Option (tuple_element N T U)
  | 0, _, _ => none
  | fuel + 1, N, t => get fuel N t

end pair

/-! ### The factory `make_pair` -/

/-- Object types: non-reference, cv-unqualified.  `reference_wrapper c v X` is
`std::reference_wrapper<cv X>`; `named n` is any other object type. -/
inductive ObjType where
  | named (n : Nat)
  | reference_wrapper (is_const is_volatile : Bool) (X : ObjType)
  deriving DecidableEq

/-- Whether a type is an object type, an lvalue reference or an rvalue reference. -/
inductive RefKind where
  | value
  | lvalue_ref
  | rvalue_ref
  deriving DecidableEq

/-- A C++ type: a possibly cv-qualified object type, or a reference to one. -/
structure CType where
  is_const : Bool
  is_volatile : Bool
  base : ObjType
  refkind : RefKind
  deriving DecidableEq

namespace detail

/-- Modelled from the spec: `::cuda::std::decay` (from `<cuda/std/utility>`, whose
source is not available), "ordinary type decay (strip references/cv-qualification)". -/
def decay (T : CType) : CType :=
  { is_const := false, is_volatile := false, base := T.base, refkind := RefKind.value }

/-- The trait `unwrap_refwrapper<T>`: the primary template gives `T`; the
specialisation for `std::reference_wrapper<T>` gives `T&`. -/
def unwrap_refwrapper : CType → CType
  | ⟨false, false, ObjType.reference_wrapper c v X, RefKind.value⟩ =>
      { is_const := c, is_volatile := v, base := X, refkind := RefKind.lvalue_ref }
  | T => T

/-- The alias `unwrap_decay_t<T> = unwrap_refwrapper<decay<T>::type>::type`. -/
def unwrap_decay_t (T : CType) : CType :=
  unwrap_refwrapper (decay T)

end detail

/-- A pair member: a member of object type holds its own value, a member of
reference type is bound to a storage cell. -/
inductive Slot (V : Type) where
  | owned (v : V)
  | ref (a : Addr)
  deriving DecidableEq

/-- Reading a pair member. -/
def Slot.read {V : Type} (σ : Store V) : Slot V → V
  | Slot.owned v => v
  | Slot.ref a => σ.read a

/-- Assigning `v` to a pair member: an owned member is replaced, a reference
member writes through to its cell. -/
def Slot.assign {V : Type} (σ : Store V) (s : Slot V) (v : V) : Store V × Slot V :=
  match s with
  | Slot.owned _ => (σ, Slot.owned v)
  | Slot.ref a => (σ.write a v, Slot.ref a)

/-- What an argument expression of `make_pair` denotes: an lvalue naming a cell
that holds a plain value, a temporary plain value, or a `std::reference_wrapper`
object that wraps the object in a cell. -/
inductive Operand (V : Type) where
  | cell (a : Addr)
  | temp (v : V)
  | wrapper (a : Addr)

/-- Initialising a pair member of type `E` from a forwarded argument: a member
of lvalue-reference type binds to the object a `std::reference_wrapper`
converts to; a member of object type is copied from the argument's value.
Other combinations do not arise from `make_pair` and are rejected. -/
def init_member {V : Type} (σ : Store V) (E : CType) : Operand V → Option (Slot V)
  | Operand.wrapper a => if E.refkind = RefKind.lvalue_ref then some (Slot.ref a) else none
  | Operand.cell a => if E.refkind = RefKind.value then some (Slot.owned (σ.read a)) else none
  | Operand.temp v => if E.refkind = RefKind.value then some (Slot.owned v) else none

/-- The factory `make_pair(T&& first, U&& second)`, returning
`pair<unwrap_decay_t<T>, unwrap_decay_t<U>>{forward<T>(first), forward<U>(second)}`. -/
def make_pair {V : Type} (σ : Store V) (T U : CType) (first second : Operand V) :
    Option (pair (Slot V) (Slot V)) :=
  match init_member σ (detail.unwrap_decay_t T) first,
        init_member σ (detail.unwrap_decay_t U) second with
  | some f, some s => some { first := f, second := s }
  | _, _ => none

/-! ## `thrust/iterator/detail/tuple_of_iterator_references.h` -/

/-- Modelled from the spec: the assignment `super_t::operator=` of the backing
`thrust::tuple<Ts...>` (thrust/tuple.h, whose source is not available): "for i in 0..n, writes
`u_i` into the referent of backing element i, in ascending index order";
"arity mismatch is a compile-time rejection". -/
def tuple_assign {V : Type} (σ : Store V) : List Addr → List V → Option (Store V)
  | [], [] => some σ
  | r :: rs, u :: us => tuple_assign (σ.write r u) rs us
  | _, _ => none

/-- Modelled from the spec: the conversion of a `thrust::reference<tuple<Us...>,
Pointer, Derived>` to its value type (thrust/detail/reference.h, whose source is
not available):
"a single read of the wrapped reference".  The boxed referent is the list of
cells holding the elements of the foreign tuple. -/
def reference_load {V : Type} (σ : Store V) (other : List Addr) : List V :=
  other.map σ.read

namespace detail

/-- The class `tuple_of_iterator_references<Ts...>`: element `i` is the storage
cell that `get<i>(*this)` denotes. -/
structure tuple_of_iterator_references where
  refs : List Addr
  deriving DecidableEq

namespace tuple_of_iterator_references

/-- The number of elements, `sizeof...(Ts)`. -/
def arity (self : tuple_of_iterator_references) : Nat := self.refs.length

/-- The accessor `get<i>(*this)`: the cell at index `i`; ill-formed (`none`) when
`i` is not below the arity. -/
def get (i : Nat) (self : tuple_of_iterator_references) : Option Addr := self.refs[i]?

/-- The operator `operator=(const thrust::tuple<Us...>& other)`:
`super_t::operator=(other); return *this;`. -/
def assign_tuple {V : Type} (σ : Store V) (self : tuple_of_iterator_references)
    (other : List V) : Option (Store V × tuple_of_iterator_references) :=
  match tuple_assign σ self.refs other with
  | some σ1 => some (σ1, self)
  | none => none

/-- The operator `operator=(const thrust::pair<U1, U2>& other)`:
`get<0>(*this) = other.first; get<1>(*this) = other.second; return *this;`. -/
def assign_pair {V : Type} (σ : Store V) (self : tuple_of_iterator_references)
    (other : pair V V) : Option (Store V × tuple_of_iterator_references) :=
  match get 0 self, get 1 self with
  | some r0, some r1 =>
      let σ1 := σ.write r0 other.first
      let σ2 := σ1.write r1 other.second
      some (σ2, self)
  | _, _ => none

/-- The operator `operator=(const thrust::reference<thrust::tuple<Us...>, Pointer, Derived>& other)`:
`tuple_type other_tuple = other; super_t::operator=(other_tuple); return *this;`. -/
def assign_reference {V : Type} (σ : Store V) (self : tuple_of_iterator_references)
    (other : List Addr) : Option (Store V × tuple_of_iterator_references) :=
  let other_tuple := reference_load σ other
  match tuple_assign σ self.refs other_tuple with
  | some σ1 => some (σ1, self)
  | none => none

/-- The conversion `operator thrust::tuple<Us...>() const`, returning
`thrust::tuple<Us...>{*this}`: an element-wise copy of the current values.  The
store after the call is returned next to the tuple. -/
def to_tuple {V : Type} (σ : Store V) (self : tuple_of_iterator_references) :
    Store V × List V :=
  (σ, self.refs.map σ.read)

/-- The constant `tuple_size<tuple_of_iterator_references<Ts...>>::value`, an
`integral_constant<size_t, sizeof...(Ts)>`. -/
def tuple_size {Ty : Type} (Ts : List Ty) : Nat := Ts.length

/-- The trait `tuple_element<i, tuple_of_iterator_references<Ts...>>::type`: the
specialisation for the empty proxy defines no type; index 0 of `<T, Ts...>` is
`T`; any other index `i` of `<T, Ts...>` is element `i - 1` of `<Ts...>`. -/
def tuple_element {Ty : Type} : Nat → List Ty → Option Ty
  | _, [] => none
  | 0, T :: _ => some T
  | i + 1, _ :: Ts => tuple_element i Ts

end tuple_of_iterator_references

end detail

end thrust

/-! # Properties -/

namespace thrust

open detail detail.tuple_of_iterator_references

/-! ## Memory lemmas -/

theorem Store.read_write_same {V : Type} (σ : Store V) (a : Addr) (v : V) :
    (σ.write a v).read a = v := by
  simp [Store.read, Store.write]

theorem Store.read_write_other {V : Type} (σ : Store V) (a b : Addr) (v : V) (h : b ≠ a) :
    (σ.write a v).read b = σ.read b := by
  simp [Store.read, Store.write, h]

/-- The backing tuple's assignment is accepted exactly when the arities agree;
it leaves every cell outside the proxy alone, and a cell of the proxy ends up
with the value written at the highest index that denotes it. -/
theorem tuple_assign_spec {V : Type} (rs : List Addr) :
    ∀ (us : List V) (σ : Store V), us.length = rs.length →
      ∃ σ1, tuple_assign σ rs us = some σ1 ∧
        (∀ a, a ∉ rs → σ1.read a = σ.read a) ∧
        (∀ (j : Nat) (r : Addr) (u : V), rs[j]? = some r → us[j]? = some u →
          (∀ k : Nat, j < k → rs[k]? ≠ some r) → σ1.read r = u) := by
  induction rs with
  | nil =>
    intro us σ hlen
    cases us with
    | nil => exact ⟨σ, rfl, fun _ _ => rfl, by simp⟩
    | cons u us => simp at hlen
  | cons r0 rs ih =>
    intro us σ hlen
    cases us with
    | nil => simp at hlen
    | cons u0 us =>
      have hlen1 : us.length = rs.length := by simpa using hlen
      obtain ⟨σ1, hrun, hframe, hlast⟩ := ih us (σ.write r0 u0) hlen1
      refine ⟨σ1, by simpa [tuple_assign] using hrun, ?_, ?_⟩
      · intro a ha
        have ha1 : a ∉ rs := fun h => ha (List.mem_cons_of_mem _ h)
        have hne : a ≠ r0 := fun h => ha (by simp [h])
        rw [hframe a ha1, Store.read_write_other _ _ _ _ hne]
      · intro j r u hr hu hhigh
        cases j with
        | zero =>
          simp at hr hu
          subst hr hu
          have hnot : r0 ∉ rs := by
            intro hmem
            obtain ⟨k, hk⟩ := List.getElem?_of_mem hmem
            exact hhigh (k + 1) (Nat.succ_pos k) (by simpa using hk)
          rw [hframe r0 hnot, Store.read_write_same]
        | succ j =>
          have hr1 : rs[j]? = some r := by simpa using hr
          have hu1 : us[j]? = some u := by simpa using hu
          refine hlast j r u hr1 hu1 ?_
          intro k hk
          have := hhigh (k + 1) (Nat.succ_lt_succ hk)
          simpa using this

/-- The backing tuple's assignment is rejected when the arities differ. -/
theorem tuple_assign_none {V : Type} (rs : List Addr) :
    ∀ (us : List V) (σ : Store V), us.length ≠ rs.length → tuple_assign σ rs us = none := by
  induction rs with
  | nil =>
    intro us σ hlen
    cases us with
    | nil => simp at hlen
    | cons u us => rfl
  | cons r0 rs ih =>
    intro us σ hlen
    cases us with
    | nil => rfl
    | cons u0 us =>
      have hlen1 : us.length ≠ rs.length := by simpa using hlen
      simpa [tuple_assign] using ih us (σ.write r0 u0) hlen1

/-- In a list without duplicates no later index holds the element at index `j`. -/
theorem nodup_no_later {rs : List Addr} (hnd : rs.Nodup) {j : Nat} {r : Addr}
    (hr : rs[j]? = some r) : ∀ k : Nat, j < k → rs[k]? ≠ some r := by
  intro k hjk hk
  obtain ⟨hj, hjr⟩ := List.getElem?_eq_some.mp hr
  obtain ⟨hk1, hkr⟩ := List.getElem?_eq_some.mp hk
  have := (List.Nodup.getElem_inj_iff hnd).mp (hjr.trans hkr.symm)
  omega

/-- The structural element lookup of the proxy agrees with list indexing. -/
theorem tuple_element_eq_getElem? {Ty : Type} (Ts : List Ty) :
    ∀ i : Nat, tuple_element i Ts = Ts[i]? := by
  induction Ts with
  | nil => intro i; simp [tuple_element]
  | cons T Ts ih =>
    intro i
    cases i with
    | zero => simp [tuple_element]
    | succ i => simpa [tuple_element] using ih i

/-- A proxy of arity at least two has cells at indices 0 and 1. -/
theorem get_zero_one_of_two_le (self : tuple_of_iterator_references) (h : 2 ≤ self.arity) :
    ∃ r0 r1, self.get 0 = some r0 ∧ self.get 1 = some r1 := by
  obtain ⟨refs⟩ := self
  match refs, h with
  | r0 :: r1 :: _, _ =>
    exact ⟨r0, r1, by simp [tuple_of_iterator_references.get],
      by simp [tuple_of_iterator_references.get]⟩

/-- Pair assignment, once both accessors are well-formed, is the two writes in order. -/
theorem assign_pair_of_get {V : Type} (σ : Store V) (self : tuple_of_iterator_references)
    (other : pair V V) {r0 r1 : Addr} (h0 : self.get 0 = some r0) (h1 : self.get 1 = some r1) :
    assign_pair σ self other =
      some ((σ.write r0 other.first).write r1 other.second, self) := by
  simp [assign_pair, h0, h1]

/-! ## The claims -/

/-- C1 (write-through identity): for a proxy over pairwise-distinct cells and a
tuple of the same arity (arity 0 included), assignment from the tuple is
accepted, returns the proxy, and afterwards each backing cell `r_i`, read
directly from the store, holds `v_i`. -/
theorem write_through_identity {V : Type} (σ : Store V) (self : tuple_of_iterator_references)
    (vs : List V) (hlen : vs.length = self.refs.length) (hnd : self.refs.Nodup) :
    ∃ σ1, assign_tuple σ self vs = some (σ1, self) ∧
      ∀ (i : Nat) (hi : i < self.refs.length),
        σ1.read (self.refs.get ⟨i, hi⟩) = vs.get ⟨i, hlen.symm ▸ hi⟩ := by
  obtain ⟨σ1, hrun, -, hlast⟩ := tuple_assign_spec self.refs vs σ hlen
  refine ⟨σ1, by simp [assign_tuple, hrun], ?_⟩
  intro i hi
  have hr : self.refs[i]? = some (self.refs.get ⟨i, hi⟩) := by
    simp [List.getElem?_eq_getElem hi]
  have hv : vs[i]? = some (vs.get ⟨i, hlen.symm ▸ hi⟩) := by
    simp [List.getElem?_eq_getElem (hlen.symm ▸ hi : i < vs.length)]
  exact hlast i _ _ hr hv (nodup_no_later hnd hr)

/-- Witness for C1: cells 3 and 5, assigned the tuple (10, 20). -/
theorem write_through_identity_witness :
    (([10, 20] : List Nat).length = ([3, 5] : List Addr).length ∧ ([3, 5] : List Addr).Nodup) ∧
    ∃ σ1, assign_tuple (fun _ => (0 : Nat)) ⟨[3, 5]⟩ [10, 20] = some (σ1, ⟨[3, 5]⟩) ∧
      ∀ (i : Nat) (hi : i < ([3, 5] : List Addr).length),
        σ1.read (([3, 5] : List Addr).get ⟨i, hi⟩) = ([10, 20] : List Nat).get ⟨i, hi⟩ :=
  ⟨⟨rfl, by decide⟩, write_through_identity (fun _ => (0 : Nat)) ⟨[3, 5]⟩ [10, 20] rfl (by decide)⟩

/-- C2 (non-rebinding): each of the three assignment operators, whenever it is
accepted, returns the proxy it was called on, which denotes the same cell at
every index as before; and each is accepted on matching arity (from a tuple or
a boxed tuple) or on arity at least two (from a pair). -/
theorem non_rebinding {V : Type} (σ : Store V) (self : tuple_of_iterator_references) :
    (∀ (other : List V) (σ1 : Store V) (p : tuple_of_iterator_references),
        assign_tuple σ self other = some (σ1, p) → p = self ∧ ∀ i, p.get i = self.get i) ∧
    (∀ (other : pair V V) (σ1 : Store V) (p : tuple_of_iterator_references),
        assign_pair σ self other = some (σ1, p) → p = self ∧ ∀ i, p.get i = self.get i) ∧
    (∀ (other : List Addr) (σ1 : Store V) (p : tuple_of_iterator_references),
        assign_reference σ self other = some (σ1, p) → p = self ∧ ∀ i, p.get i = self.get i) ∧
    (∀ other : List V, other.length = self.arity →
        ∃ σ1, assign_tuple σ self other = some (σ1, self)) ∧
    (∀ other : pair V V, 2 ≤ self.arity →
        ∃ σ1, assign_pair σ self other = some (σ1, self)) ∧
    (∀ other : List Addr, other.length = self.arity →
        ∃ σ1, assign_reference σ self other = some (σ1, self)) := by
  refine ⟨?_, ?_, ?_, ?_, ?_, ?_⟩
  · intro other σ1 p h
    unfold assign_tuple at h
    split at h
    · simp only [Option.some.injEq, Prod.mk.injEq] at h
      obtain ⟨-, rfl⟩ := h
      exact ⟨rfl, fun _ => rfl⟩
    · simp at h
  · intro other σ1 p h
    unfold assign_pair at h
    split at h
    · simp only [Option.some.injEq, Prod.mk.injEq] at h
      obtain ⟨-, rfl⟩ := h
      exact ⟨rfl, fun _ => rfl⟩
    · simp at h
  · intro other σ1 p h
    unfold assign_reference at h
    simp only at h
    split at h
    · simp only [Option.some.injEq, Prod.mk.injEq] at h
      obtain ⟨-, rfl⟩ := h
      exact ⟨rfl, fun _ => rfl⟩
    · simp at h
  · intro other hlen
    obtain ⟨σ1, hrun, -, -⟩ := tuple_assign_spec self.refs other σ hlen
    exact ⟨σ1, by simp [assign_tuple, hrun]⟩
  · intro other h2
    obtain ⟨r0, r1, h0, h1⟩ := get_zero_one_of_two_le self h2
    exact ⟨_, assign_pair_of_get σ self other h0 h1⟩
  · intro other hlen
    have hlen1 : (reference_load σ other).length = self.refs.length := by
      simpa [reference_load] using hlen
    obtain ⟨σ1, hrun, -, -⟩ := tuple_assign_spec self.refs (reference_load σ other) σ hlen1
    exact ⟨σ1, by simp [assign_reference, hrun]⟩

/-- Witness for C2: a pair assigned into the proxy over cells 1 and 2. -/
theorem non_rebinding_witness :
    2 ≤ (⟨[1, 2]⟩ : tuple_of_iterator_references).arity ∧
    ∃ σ1, assign_pair (fun _ => (0 : Nat)) ⟨[1, 2]⟩ ⟨5, 6⟩ = some (σ1, ⟨[1, 2]⟩) :=
  ⟨by decide, (non_rebinding (fun _ => (0 : Nat)) ⟨[1, 2]⟩).2.2.2.2.1 ⟨5, 6⟩ (by decide)⟩

/-- C3 (pair round-trip): on an arity-2 proxy, aliased or not, assigning
`pair(a, b)` is accepted and gives the same store and the same proxy as
assigning `tuple(a, b)`. -/
theorem pair_round_trip {V : Type} (σ : Store V) (self : tuple_of_iterator_references)
    (a b : V) (h2 : self.arity = 2) :
    assign_pair σ self ⟨a, b⟩ = assign_tuple σ self [a, b] ∧
    ∃ σ1, assign_pair σ self ⟨a, b⟩ = some (σ1, self) := by
  obtain ⟨refs⟩ := self
  match refs, h2 with
  | [r0, r1], _ =>
    refine ⟨?_, ?_⟩
    · simp [assign_pair, assign_tuple, tuple_assign, tuple_of_iterator_references.get]
    · have h0 : tuple_of_iterator_references.get 0 ⟨[r0, r1]⟩ = some r0 := by
        simp [tuple_of_iterator_references.get]
      have h1 : tuple_of_iterator_references.get 1 ⟨[r0, r1]⟩ = some r1 := by
        simp [tuple_of_iterator_references.get]
      exact ⟨_, assign_pair_of_get σ ⟨[r0, r1]⟩ ⟨a, b⟩ h0 h1⟩

/-- Witness for C3: both references alias cell 4. -/
theorem pair_round_trip_witness :
    (⟨[4, 4]⟩ : tuple_of_iterator_references).arity = 2 ∧
    (assign_pair (fun _ => (0 : Nat)) ⟨[4, 4]⟩ ⟨1, 2⟩
        = assign_tuple (fun _ => (0 : Nat)) ⟨[4, 4]⟩ [1, 2] ∧
      ∃ σ1, assign_pair (fun _ => (0 : Nat)) ⟨[4, 4]⟩ ⟨1, 2⟩ = some (σ1, ⟨[4, 4]⟩)) :=
  ⟨rfl, pair_round_trip (fun _ => (0 : Nat)) ⟨[4, 4]⟩ 1 2 rfl⟩

/-- C4 (materialization purity): converting a proxy to a plain tuple leaves the
store unchanged and returns, at every index, the value currently held by the
cell the proxy denotes there; after a direct overwrite of a backing cell, the
conversion and a read through the proxy give the new value. -/
theorem materialization_purity {V : Type} (σ : Store V) (self : tuple_of_iterator_references) :
    (to_tuple σ self).1 = σ ∧
    (to_tuple σ self).2.length = self.arity ∧
    (∀ (i : Nat) (r : Addr), self.get i = some r →
        (to_tuple σ self).2[i]? = some (σ.read r)) ∧
    (∀ (i : Nat) (r : Addr) (x : V), self.get i = some r →
        (to_tuple (σ.write r x) self).2[i]? = some x ∧ (σ.write r x).read r = x) := by
  refine ⟨rfl, by simp [to_tuple, arity], ?_, ?_⟩
  · intro i r hr
    have hr1 : self.refs[i]? = some r := hr
    simp [to_tuple, hr1]
  · intro i r x hr
    have hr1 : self.refs[i]? = some r := hr
    simp [to_tuple, hr1, Store.read_write_same]

/-- Witness for C4: cell 0 of the proxy over cells 0 and 1 is overwritten with 99. -/
theorem materialization_purity_witness :
    tuple_of_iterator_references.get 0 ⟨[0, 1]⟩ = some 0 ∧
    ((to_tuple (Store.write (fun _ => (1 : Nat)) 0 99) ⟨[0, 1]⟩).2[0]? = some 99 ∧
      (Store.write (fun _ => (1 : Nat)) 0 99).read 0 = 99) :=
  ⟨rfl, (materialization_purity (fun _ => (1 : Nat)) ⟨[0, 1]⟩).2.2.2 0 0 99 rfl⟩

/-- The accessor `get<N>` on a pair returns no value, whatever depth of nested
calls it is allowed. -/
theorem pair_get_eq_none {T U : Type} (N : Fin 2) (t : pair T U) :
    ∀ fuel : Nat, pair.get fuel N t = none := by
  intro fuel
  induction fuel with
  | zero => rfl
  | succ fuel ih => simpa [pair.get] using ih

/-- C5 (adapter interop, where the code departs from it): a pair constructed
from a foreign pair `(a, b)` has `first = a` and `second = b` after conversion,
and assigning a foreign pair `(c, d)` returns the pair with `first = c` and
`second = d` after conversion, whatever it held before; but `get<0>` and
`get<1>` applied to either pair call themselves and return no value at any
depth of nested calls, so they do not yield `a`, `b`, `c` or `d`. -/
theorem adapter_interop_get_never_returns {T U T2 U2 : Type} (cT : T2 → T) (cU : U2 → U)
    (a c : T2) (b d : U2) (p : pair T U) (fuel : Nat) :
    (pair.from_std cT cU ⟨a, b⟩).first = cT a ∧
    (pair.from_std cT cU ⟨a, b⟩).second = cU b ∧
    (pair.assign_std cT cU p ⟨c, d⟩).first = cT c ∧
    (pair.assign_std cT cU p ⟨c, d⟩).second = cU d ∧
    pair.assign_std cT cU p ⟨c, d⟩ = pair.from_std cT cU ⟨c, d⟩ ∧
    pair.get fuel 0 (pair.from_std cT cU ⟨a, b⟩) = none ∧
    pair.get fuel 1 (pair.from_std cT cU ⟨a, b⟩) = none ∧
    pair.get fuel 0 (pair.assign_std cT cU p ⟨c, d⟩) = none ∧
    pair.get fuel 1 (pair.assign_std cT cU p ⟨c, d⟩) = none ∧
    pair.get fuel 0 (pair.from_std (fun n : Nat => n) (fun n : Nat => n) ⟨1, 2⟩)
      ≠ some (1 : Nat) :=
  ⟨rfl, rfl, rfl, rfl, rfl,
    pair_get_eq_none 0 _ fuel, pair_get_eq_none 1 _ fuel,
    pair_get_eq_none 0 _ fuel, pair_get_eq_none 1 _ fuel,
    by rw [pair_get_eq_none 0 _ fuel]; exact fun h => Option.noConfusion h⟩

/-- C6 (structural protocol pass-through): the proxy's `tuple_size` is the
length of its type list; `tuple_element` at an index below the arity is the
type at that index of the list; at an index not below the arity, and at index 0
of the empty proxy, no type is defined. -/
theorem structural_protocol {Ty : Type} (Ts : List Ty) (i : Nat) :
    tuple_size Ts = Ts.length ∧
    (∀ h : i < Ts.length, tuple_element i Ts = some (Ts.get ⟨i, h⟩)) ∧
    (Ts.length ≤ i → tuple_element i Ts = none) ∧
    tuple_element 0 ([] : List Ty) = none := by
  refine ⟨rfl, ?_, ?_, rfl⟩
  · intro h
    rw [tuple_element_eq_getElem?]
    simp [List.getElem?_eq_getElem h]
  · intro h
    rw [tuple_element_eq_getElem?]
    exact List.getElem?_eq_none h

/-- Witness for C6: index 1 and index 3 of a three-element type list. -/
theorem structural_protocol_witness :
    (1 < ([10, 20, 30] : List Nat).length ∧ ([10, 20, 30] : List Nat).length ≤ 3) ∧
    tuple_element 1 ([10, 20, 30] : List Nat) = some 20 ∧
    tuple_element 3 ([10, 20, 30] : List Nat) = none :=
  ⟨⟨by decide, by decide⟩,
    (structural_protocol ([10, 20, 30] : List Nat) 1).2.1 (by decide),
    (structural_protocol ([10, 20, 30] : List Nat) 3).2.2.1 (by decide)⟩

/-- A type whose decayed type is `std::reference_wrapper<cv X>` unwraps to `cv X&`. -/
theorem unwrap_decay_t_of_wrapper (S : CType) (c v : Bool) (X : ObjType)
    (h : S.base = ObjType.reference_wrapper c v X) :
    unwrap_decay_t S = ⟨c, v, X, RefKind.lvalue_ref⟩ := by
  simp [unwrap_decay_t, decay, h, unwrap_refwrapper]

/-- A type whose decayed type is not a `std::reference_wrapper` unwraps to its decayed type. -/
theorem unwrap_decay_t_of_plain (S : CType)
    (h : ∀ c v X, S.base ≠ ObjType.reference_wrapper c v X) :
    unwrap_decay_t S = decay S := by
  obtain ⟨sc, sv, sb, sr⟩ := S
  cases sb with
  | named n => simp [unwrap_decay_t, decay, unwrap_refwrapper]
  | reference_wrapper c v X => exact absurd rfl (h c v X)

/-- C7 (reference-forcing factory): `unwrap_decay_t<S>` is `X&` when `decay(S)`
is `reference_wrapper<X>`, whatever the cv/reference qualification of `S`, and
`decay(S)` otherwise.  Hence `make_pair(x, ref(y))`, with `x` a plain value in
cell `ax` and `y` the object in cell `ay`, is a pair whose second member is
bound to `ay` (a write through it is read back at `y`, and a write to `y` is
read through it) and whose first member is a copy of `x` (a write to it leaves
the store, and so `x`, unchanged, and a write to `x` does not change it). -/
theorem reference_forcing_factory {V : Type} (σ : Store V) (T U : CType) (ax ay : Addr)
    (w : V) (c v : Bool) (X : ObjType)
    (hT : ∀ c1 v1 X1, T.base ≠ ObjType.reference_wrapper c1 v1 X1)
    (hU : U.base = ObjType.reference_wrapper c v X) :
    (∀ (S : CType) (c1 v1 : Bool) (X1 : ObjType),
        decay S = ⟨false, false, ObjType.reference_wrapper c1 v1 X1, RefKind.value⟩ →
        unwrap_decay_t S = ⟨c1, v1, X1, RefKind.lvalue_ref⟩) ∧
    (∀ (q1 q2 : Bool) (rk : RefKind) (c1 v1 : Bool) (X1 : ObjType),
        unwrap_decay_t ⟨q1, q2, ObjType.reference_wrapper c1 v1 X1, rk⟩
          = ⟨c1, v1, X1, RefKind.lvalue_ref⟩) ∧
    (∀ S : CType,
        (∀ c1 v1 X1,
          decay S ≠ ⟨false, false, ObjType.reference_wrapper c1 v1 X1, RefKind.value⟩) →
        unwrap_decay_t S = decay S) ∧
    unwrap_decay_t T = decay T ∧
    unwrap_decay_t U = ⟨c, v, X, RefKind.lvalue_ref⟩ ∧
    ∃ p, make_pair σ T U (Operand.cell ax) (Operand.wrapper ay) = some p ∧
      p.first = Slot.owned (σ.read ax) ∧
      p.second = Slot.ref ay ∧
      (Slot.assign σ p.second w).1.read ay = w ∧
      Slot.read (σ.write ay w) p.second = w ∧
      (Slot.assign σ p.first w).1 = σ ∧
      (Slot.assign σ p.first w).2 = Slot.owned w ∧
      Slot.read (σ.write ax w) p.first = σ.read ax := by
  have hTd : unwrap_decay_t T = decay T := unwrap_decay_t_of_plain T hT
  have hUd : unwrap_decay_t U = ⟨c, v, X, RefKind.lvalue_ref⟩ :=
    unwrap_decay_t_of_wrapper U c v X hU
  refine ⟨?_, ?_, ?_, hTd, hUd, ?_⟩
  · intro S c1 v1 X1 h
    refine unwrap_decay_t_of_wrapper S c1 v1 X1 ?_
    have := congrArg CType.base h
    simpa [decay] using this
  · intro q1 q2 rk c1 v1 X1
    exact unwrap_decay_t_of_wrapper _ c1 v1 X1 rfl
  · intro S h
    refine unwrap_decay_t_of_plain S ?_
    intro c1 v1 X1 hb
    exact h c1 v1 X1 (by simp [decay, hb])
  · refine ⟨⟨Slot.owned (σ.read ax), Slot.ref ay⟩, ?_, rfl, rfl, ?_, ?_, rfl, rfl, rfl⟩
    · simp [make_pair, hTd, hUd, init_member, decay]
    · simp [Slot.assign, Store.read_write_same]
    · simp [Slot.read, Store.read_write_same]

/-- Witness for C7: `make_pair(x, ref(y))` with `x` an lvalue of type 0 in cell
3 and `y` an object of type 1 in cell 4. -/
theorem reference_forcing_factory_witness :
    ((∀ c1 v1 X1, (CType.mk false false (ObjType.named 0) RefKind.lvalue_ref).base
        ≠ ObjType.reference_wrapper c1 v1 X1) ∧
      (CType.mk false false (ObjType.reference_wrapper false false (ObjType.named 1))
        RefKind.value).base = ObjType.reference_wrapper false false (ObjType.named 1)) ∧
    ∃ p, make_pair (fun a => a + 1)
        ⟨false, false, ObjType.named 0, RefKind.lvalue_ref⟩
        ⟨false, false, ObjType.reference_wrapper false false (ObjType.named 1), RefKind.value⟩
        (Operand.cell 3) (Operand.wrapper 4) = some p ∧
      p.second = Slot.ref 4 ∧
      (Slot.assign (fun a => a + 1) p.second 77).1.read 4 = 77 ∧
      (Slot.assign (fun a => a + 1) p.first 77).1 = (fun a => a + 1) :=
  have hT : ∀ c1 v1 X1, (CType.mk false false (ObjType.named 0) RefKind.lvalue_ref).base
      ≠ ObjType.reference_wrapper c1 v1 X1 := fun _ _ _ h => ObjType.noConfusion h
  ⟨⟨hT, rfl⟩,
    let ⟨p, hp, _, h2, h3, _, h5, _, _⟩ :=
      (reference_forcing_factory (fun a => a + 1)
        ⟨false, false, ObjType.named 0, RefKind.lvalue_ref⟩
        ⟨false, false, ObjType.reference_wrapper false false (ObjType.named 1), RefKind.value⟩
        3 4 77 false false (ObjType.named 1) hT rfl).2.2.2.2.2
    ⟨p, hp, h2, h3, h5⟩⟩

/-- C8 (a counterexample): the proxy over cells 0, 1, 2 has arity 3, yet
assignment from `pair(7, 8)` is accepted and writes 7 into cell 0 and 8 into
cell 1. -/
theorem pair_into_arity_three_accepted :
    (⟨[0, 1, 2]⟩ : tuple_of_iterator_references).arity = 3 ∧
    ∃ σ1, assign_pair (fun _ => (0 : Nat)) ⟨[0, 1, 2]⟩ ⟨7, 8⟩ = some (σ1, ⟨[0, 1, 2]⟩) ∧
      σ1.read 0 = 7 ∧ σ1.read 1 = 8 ∧ σ1.read 2 = 0 :=
  ⟨rfl, _, rfl, rfl, rfl, rfl⟩

/-- C8 (amended): assignment from a pair is accepted if and only if the arity
is at least 2; below arity 2 it is rejected and writes nothing; when accepted
it writes `pair.first` into referent 0 and then `pair.second` into referent 1
and returns the proxy.  Afterwards referent 1 holds `pair.second`, referent 0
holds `pair.first` when it is a different cell from referent 1, and every cell
other than referents 0 and 1 (in particular every referent at an index from 2
on that is neither of these two cells) holds what it held before. -/
theorem assign_pair_arity {V : Type} (σ : Store V) (self : tuple_of_iterator_references)
    (other : pair V V) :
    ((assign_pair σ self other).isSome = true ↔ 2 ≤ self.arity) ∧
    (self.arity < 2 → assign_pair σ self other = none) ∧
    (2 ≤ self.arity → ∃ r0 r1 σ1, self.get 0 = some r0 ∧ self.get 1 = some r1 ∧
        σ1 = (σ.write r0 other.first).write r1 other.second ∧
        assign_pair σ self other = some (σ1, self) ∧
        σ1.read r1 = other.second ∧
        (r0 ≠ r1 → σ1.read r0 = other.first) ∧
        (∀ a, a ≠ r0 → a ≠ r1 → σ1.read a = σ.read a) ∧
        (∀ (i : Nat) (r : Addr), 2 ≤ i → self.get i = some r → r ≠ r0 → r ≠ r1 →
          σ1.read r = σ.read r)) := by
  have hsmall : self.arity < 2 → assign_pair σ self other = none := by
    intro h
    obtain ⟨refs⟩ := self
    match refs, h with
    | [], _ => simp [assign_pair, tuple_of_iterator_references.get]
    | [_], _ => simp [assign_pair, tuple_of_iterator_references.get]
  have hframe : ∀ (r0 r1 a : Addr), a ≠ r0 → a ≠ r1 →
      ((σ.write r0 other.first).write r1 other.second).read a = σ.read a := by
    intro r0 r1 a ha0 ha1
    rw [Store.read_write_other _ _ _ _ ha1, Store.read_write_other _ _ _ _ ha0]
  have hbig : 2 ≤ self.arity → ∃ r0 r1 σ1, self.get 0 = some r0 ∧ self.get 1 = some r1 ∧
      σ1 = (σ.write r0 other.first).write r1 other.second ∧
      assign_pair σ self other = some (σ1, self) ∧
      σ1.read r1 = other.second ∧
      (r0 ≠ r1 → σ1.read r0 = other.first) ∧
      (∀ a, a ≠ r0 → a ≠ r1 → σ1.read a = σ.read a) ∧
      (∀ (i : Nat) (r : Addr), 2 ≤ i → self.get i = some r → r ≠ r0 → r ≠ r1 →
        σ1.read r = σ.read r) := by
    intro h
    obtain ⟨r0, r1, h0, h1⟩ := get_zero_one_of_two_le self h
    refine ⟨r0, r1, _, h0, h1, rfl, assign_pair_of_get σ self other h0 h1,
      Store.read_write_same _ _ _, ?_, hframe r0 r1, ?_⟩
    · intro hne
      rw [Store.read_write_other _ _ _ _ hne, Store.read_write_same]
    · intro i r _ _ hr0 hr1
      exact hframe r0 r1 r hr0 hr1
  refine ⟨⟨?_, ?_⟩, hsmall, hbig⟩
  · intro h
    by_contra hlt
    rw [hsmall (Nat.lt_of_not_le hlt)] at h
    simp at h
  · intro h
    obtain ⟨r0, r1, σ1, -, -, -, hrun, -⟩ := hbig h
    simp [hrun]

/-- Witness for C8 (amended): arity 1 is rejected, arity 2 is accepted. -/
theorem assign_pair_arity_witness :
    ((⟨[5]⟩ : tuple_of_iterator_references).arity < 2 ∧
      2 ≤ (⟨[5, 6]⟩ : tuple_of_iterator_references).arity) ∧
    assign_pair (fun _ => (0 : Nat)) ⟨[5]⟩ ⟨7, 8⟩ = none ∧
    (assign_pair (fun _ => (0 : Nat)) ⟨[5, 6]⟩ ⟨7, 8⟩).isSome = true :=
  ⟨⟨by decide, by decide⟩,
    (assign_pair_arity (fun _ => (0 : Nat)) ⟨[5]⟩ ⟨7, 8⟩).2.1 (by decide),
    (assign_pair_arity (fun _ => (0 : Nat)) ⟨[5, 6]⟩ ⟨7, 8⟩).1.mpr (by decide)⟩

/-- C9 (boxed-reference assignment equals tuple assignment): when the boxed
referent holds the tuple `t` in the store at the time of the call, assignment
from the boxed reference gives the same store and the same proxy as
assignment from `t`; it is accepted on matching arity, and over distinct proxy
cells every cell ends up with the value its boxed counterpart held before the
call, also when the boxed cells overlap the proxy. -/
theorem boxed_reference_assignment {V : Type} (σ : Store V)
    (self : tuple_of_iterator_references) (other : List Addr) (t : List V)
    (ht : reference_load σ other = t) :
    assign_reference σ self other = assign_tuple σ self t ∧
    (other.length = self.arity → ∃ σ1, assign_reference σ self other = some (σ1, self) ∧
      (self.refs.Nodup → ∀ (i : Nat) (r b : Addr), self.get i = some r → other[i]? = some b →
        σ1.read r = σ.read b)) := by
  subst ht
  refine ⟨rfl, ?_⟩
  intro hlen
  have hlen1 : (reference_load σ other).length = self.refs.length := by
    simpa [reference_load] using hlen
  obtain ⟨σ1, hrun, -, hlast⟩ := tuple_assign_spec self.refs (reference_load σ other) σ hlen1
  refine ⟨σ1, by simp [assign_reference, hrun], ?_⟩
  intro hnd i r b hr hb
  have hr1 : self.refs[i]? = some r := hr
  have hv : (reference_load σ other)[i]? = some (σ.read b) := by
    simp [reference_load, hb]
  exact hlast i r _ hr1 hv (nodup_no_later hnd hr1)

/-- Witness for C9: the boxed tuple lives in cells 1 and 0, the proxy is over
cells 0 and 1, so the two overlap crosswise. -/
theorem boxed_reference_assignment_witness :
    reference_load (fun a : Addr => a + 10) [1, 0] = [11, 10] ∧
    (assign_reference (fun a : Addr => a + 10) ⟨[0, 1]⟩ [1, 0]
        = assign_tuple (fun a : Addr => a + 10) ⟨[0, 1]⟩ [11, 10]) :=
  ⟨rfl, (boxed_reference_assignment (fun a : Addr => a + 10) ⟨[0, 1]⟩ [1, 0] [11, 10] rfl).1⟩

/-- C10 (ascending write order): assignment from a tuple of matching arity
leaves in each cell of the proxy the value `u_j` of the highest index `j` that
denotes the cell; an arity-2 proxy whose two references alias one cell holds
`b` there after assigning `pair(a, b)` and after assigning `tuple(a, b)`. -/
theorem ascending_write_order {V : Type} (σ : Store V) (self : tuple_of_iterator_references)
    (us : List V) (hlen : us.length = self.arity) (r0 : Addr) (a b : V) :
    (∃ σ1, assign_tuple σ self us = some (σ1, self) ∧
      ∀ (j : Nat) (r : Addr) (u : V), self.get j = some r → us[j]? = some u →
        (∀ k : Nat, j < k → self.get k ≠ some r) → σ1.read r = u) ∧
    (∃ σ2, assign_pair σ ⟨[r0, r0]⟩ ⟨a, b⟩ = some (σ2, ⟨[r0, r0]⟩) ∧ σ2.read r0 = b) ∧
    (∃ σ3, assign_tuple σ ⟨[r0, r0]⟩ [a, b] = some (σ3, ⟨[r0, r0]⟩) ∧ σ3.read r0 = b) := by
  refine ⟨?_, ?_, ?_⟩
  · obtain ⟨σ1, hrun, -, hlast⟩ := tuple_assign_spec self.refs us σ hlen
    exact ⟨σ1, by simp [assign_tuple, hrun], hlast⟩
  · refine ⟨(σ.write r0 a).write r0 b, ?_, Store.read_write_same _ _ _⟩
    simp [assign_pair, tuple_of_iterator_references.get]
  · refine ⟨(σ.write r0 a).write r0 b, ?_, Store.read_write_same _ _ _⟩
    simp [assign_tuple, tuple_assign]

/-- Witness for C10: indices 0 and 2 both denote cell 4; the value of index 2 stays. -/
theorem ascending_write_order_witness :
    ([7, 8, 9] : List Nat).length = (⟨[4, 5, 4]⟩ : tuple_of_iterator_references).arity ∧
    ∃ σ1, assign_tuple (fun _ => (0 : Nat)) ⟨[4, 5, 4]⟩ [7, 8, 9] = some (σ1, ⟨[4, 5, 4]⟩) ∧
      σ1.read 4 = 9 :=
  ⟨rfl,
    let ⟨σ1, hrun, hlast⟩ :=
      (ascending_write_order (fun _ => (0 : Nat)) ⟨[4, 5, 4]⟩ [7, 8, 9] rfl 0 0 0).1
    ⟨σ1, hrun, hlast 2 4 9 rfl rfl (fun k hk => by
      have hnone : tuple_of_iterator_references.get k ⟨[4, 5, 4]⟩ = none :=
        List.getElem?_eq_none (by simpa using hk)
      simp [hnone])⟩⟩

end thrust
